import Mathlib

/-!
Verification development for the log-processing pipeline (src/index.ts,
src/utils/s3.ts, src/config.ts).  The TypeScript control flow and string
manipulations are shallowly embedded as executable Lean functions; external
effects (S3/R2 calls, the SSH probe, the MySQL store, the resolver) are
modelled as oracle parameters, and the observable behaviour of each stage is
captured as a value or a list of abstract events.
-/

namespace LogCode

/-! ### JavaScript string primitives

Models of the JS string operations the pipeline uses: `String.prototype.trim`,
`split`, `includes`, `replace` (first occurrence, string pattern) and
`startsWith`. -/

/-- Characters removed by `String.prototype.trim` (WhiteSpace plus
LineTerminator code points). -/
def isJsWS (c : Char) : Bool :=
  c == '\t' || c == '\n' || c.val == 11 || c.val == 12 || c == '\r' || c == ' ' ||
  c.val == 0xA0 || c.val == 0x1680 || (0x2000 ≤ c.val && c.val ≤ 0x200A) ||
  c.val == 0x2028 || c.val == 0x2029 || c.val == 0x202F || c.val == 0x205F ||
  c.val == 0x3000 || c.val == 0xFEFF

/-- `trim` on a character list: drop leading and trailing whitespace. -/
def jsTrimL (l : List Char) : List Char :=
  ((l.dropWhile isJsWS).reverse.dropWhile isJsWS).reverse

/-- Model of `s.trim()`. -/
def jsTrim (s : String) : String :=
  ⟨jsTrimL s.toList⟩

/-- `split` on a single separator character, JS semantics
(`"".split(sep) = [""]`, separators at the ends yield empty fields). -/
def splitOnChar (sep : Char) : List Char → List (List Char)
  | [] => [[]]
  | c :: cs =>
    let r := splitOnChar sep cs
    if c = sep then [] :: r
    else
      match r with
      | [] => [[c]]
      | h :: t => (c :: h) :: t

/-- Model of `s.split(sep)` for a one-character separator. -/
def jsSplit (sep : Char) (s : String) : List String :=
  (splitOnChar sep s.toList).map (fun l => ⟨l⟩)

/-- Character-list starts-with test. -/
def hasPrefixCL : List Char → List Char → Bool
  | [], _ => true
  | _ :: _, [] => false
  | p :: ps, c :: cs => p == c && hasPrefixCL ps cs

/-- Character-list substring test (`[] ` is a substring of everything,
matching JS `includes("") = true`). -/
def hasSubstr (p : List Char) : List Char → Bool
  | [] => hasPrefixCL p []
  | c :: cs => hasPrefixCL p (c :: cs) || hasSubstr p cs

/-- Model of `s.includes(pat)`. -/
def strIncludes (s pat : String) : Bool :=
  hasSubstr pat.toList s.toList

/-- Replace the first occurrence of `pat` by `rep` (JS
`String.prototype.replace` with a string pattern); the string is returned
unchanged when `pat` does not occur. -/
def replaceFirstL (pat rep : List Char) : List Char → List Char
  | [] => if hasPrefixCL pat [] then rep else []
  | c :: cs =>
    if hasPrefixCL pat (c :: cs) then rep ++ (c :: cs).drop pat.length
    else c :: replaceFirstL pat rep cs

/-- Model of `s.replace(pat, rep)` (first occurrence only). -/
def replaceFirst (s pat rep : String) : String :=
  ⟨replaceFirstL pat.toList rep.toList s.toList⟩

/-- Model of `p.startsWith('/')`. -/
def startsWithSlash (p : String) : Bool :=
  match p.toList with
  | [] => false
  | c :: _ => c == '/'

/-! ### Partition Catalog (src/index.ts lines 404-460)

`listAllFolders` returns strings of the shape `s3://bucket/YYYYMMDD/`.  The
code shuffles, sorts ascending by the date segment
(`f.split('/').slice(-2, -1)[0]`), removes the last (most recent) folder,
loads the `r2_path` column of the `logs` rows with status `downloaded`,
extracts `f.split('/').pop().split('.')[0]` as the already-processed date
keys (kept only when they match `/^\d{8}$/`), and filters the remaining
folders by their date keys.  The shuffled order is the model's input list;
JS `localeCompare` on the digit-only date keys coincides with the string
order used here. -/

/-- Date segment of a folder path: `f.split('/').slice(-2, -1)[0]`
(second-to-last field; folder paths always end in `/`). -/
def folderDateKey (f : String) : String :=
  let ps := jsSplit '/' f
  ps.getD (ps.length - 2) ""

/-- Date key recorded in a `logs` row:
`r2_path.split('/').pop().split('.')[0]`. -/
def rowDateKey (p : String) : String :=
  let last := (jsSplit '/' p).getLastD ""
  (jsSplit '.' last).headD ""

/-- The `/^\d{8}$/` test. -/
def isEightDigits (s : String) : Bool :=
  s.length == 8 && s.toList.all (fun c => c.isDigit)

/-- The set of already-processed date keys built from the `r2_path` values of
the persisted state rows. -/
def existingDatesOf (rows : List String) : List String :=
  (rows.map rowDateKey).filter isEightDigits

/-- Comparator used to sort folders ascending by date key. -/
def folderLe (a b : String) : Prop :=
  folderDateKey a ≤ folderDateKey b

instance : DecidableRel folderLe :=
  fun a b => inferInstanceAs (Decidable (folderDateKey a ≤ folderDateKey b))

instance : IsTotal String folderLe :=
  ⟨fun a b => le_total (folderDateKey a) (folderDateKey b)⟩

instance : IsTrans String folderLe :=
  ⟨fun _ _ _ h1 h2 => le_trans h1 h2⟩

/-- Candidate partitions: sort the listed folders ascending by date key, drop
the most recent one, and keep those whose date key has no state row. -/
def candidateFolders (folders rows : List String) : List String :=
  let sorted := List.insertionSort folderLe folders
  let toProcess := sorted.dropLast
  let dates := existingDatesOf rows
  toProcess.filter (fun f => decide (folderDateKey f ∉ dates))

/-! ### Merge/Dedupe stage (src/index.ts lines 765-906)

Step 3 streams every per-file scratch output into `allinone.txt`, writing
`line.trim()` for each non-empty trimmed line.  Step 4's primary strategy runs
`sort -u` on that file; the fallback (taken when the external sort fails)
streams the merged file through an in-memory `Set` capped at 5,000,000
entries — a line is written when its trim is non-empty and not in the set,
the set is cleared once its size reaches the cap — and finishes with a plain
external `sort`.  The external sort utility is modelled as a sort of the
file's lines; `sort -u` additionally drops duplicate lines. -/

/-- Lines of the merged intermediate file: for each scratch file, its lines
trimmed, empty results dropped, concatenated in file order. -/
def mergeLines (files : List (List String)) : List String :=
  (files.map (fun f => (f.map jsTrim).filter (fun x => x != ""))).flatten

/-- Plain string order used to model the external sort utility. -/
def strLe (a b : String) : Prop := a ≤ b

instance : DecidableRel strLe :=
  fun a b => inferInstanceAs (Decidable (a ≤ b))

instance : IsTotal String strLe := ⟨fun a b => le_total a b⟩

instance : IsTrans String strLe := ⟨fun _ _ _ h1 h2 => le_trans h1 h2⟩

/-- Model of `sort -u file`: sorted lines with duplicates removed. -/
def sortU (l : List String) : List String :=
  (List.insertionSort strLe l).dedup

/-- The fallback `Set` cap (`MAX_SET_SIZE`). -/
def MAX_SET_SIZE : Nat := 5000000

/-- One pass of the streaming-dedupe fallback over the merged file's lines:
a line is emitted when its trim is non-empty and not in `seen`; after adding
it, the set is cleared when its size has reached the cap. -/
def fallbackDedup (cap : Nat) : List String → Finset String → List String
  | [], _ => []
  | line :: rest, seen =>
    let t := jsTrim line
    if t = "" then fallbackDedup cap rest seen
    else if t ∈ seen then fallbackDedup cap rest seen
    else
      let seen1 := insert t seen
      let seen2 := if cap ≤ seen1.card then ∅ else seen1
      t :: fallbackDedup cap rest seen2

/-- Lines written by the fallback pass (initial set empty). -/
def fallbackOutput (l : List String) : List String :=
  fallbackDedup MAX_SET_SIZE l ∅

/-- The fallback's final file: its written lines after the trailing external
`sort` pass (no `-u`). -/
def fallbackFinal (l : List String) : List String :=
  List.insertionSort strLe (fallbackOutput l)

/-! ### Existence Batcher (src/index.ts lines 257-400)

`processBatchSSHChecks` no-ops on an empty batch or once the process-wide
`sshAuthFailed` flag is set.  Otherwise it builds one SSH command and loops:
run it (`bashCommand` with timeout `min(60000, 1000 + files.length * 1000)`);
on success parse the `EXISTS:`/`NOTEXISTS:` lines, append the existing ones
to the not-found log and break; on a `Permission denied (publickey)` error
set the flag, log the warning block (only when the flag was not yet set) and
break; on any other error log, sleep 10 s, and break after the tenth failed
attempt.  The outcome of each `bashCommand` invocation is an oracle
parameter; observable behaviour is a list of abstract actions. -/

/-- Outcome of one `bashCommand` invocation of the probe. -/
inductive SSHOutcome where
  | ok
  | authDenied
  | transient
deriving DecidableEq, Repr

/-- Observable actions of the batcher. -/
inductive SSHAction where
  | execCmd (timeoutMs : Nat)
  | warnAuthOnce
  | sleepMs (ms : Nat)
  | giveUpBatch
  | appendNotFound
deriving DecidableEq, Repr

/-- `min(60000, 1000 + files.length * 1000)`. -/
def sshTimeout (n : Nat) : Nat :=
  min 60000 (1000 + n * 1000)

/-- The retry loop, with `remaining` attempts left (10 at entry).  Returns
whether the auth-failure flag was set, and the actions performed.  The
`remaining = 0` case is unreachable from the entry point. -/
def sshLoop (tmo : Nat) (oracle : Nat → SSHOutcome) : Nat → Bool × List SSHAction
  | 0 => (false, [])
  | n + 1 =>
    match oracle n with
    | .ok => (false, [.execCmd tmo, .appendNotFound])
    | .authDenied => (true, [.execCmd tmo, .warnAuthOnce])
    | .transient =>
      if n = 0 then (false, [.execCmd tmo, .sleepMs 10000, .giveUpBatch])
      else
        let r := sshLoop tmo oracle n
        (r.1, .execCmd tmo :: .sleepMs 10000 :: r.2)

/-- One call to `processBatchSSHChecks`: `sshAuthFailed` is the process-wide
flag on entry, `batchSize` the batch length; returns the flag after the call
and the actions performed. -/
def processBatchSSHChecks (sshAuthFailed : Bool) (batchSize : Nat)
    (oracle : Nat → SSHOutcome) : Bool × List SSHAction :=
  if batchSize = 0 then (sshAuthFailed, [])
  else if sshAuthFailed then (sshAuthFailed, [])
  else sshLoop (sshTimeout batchSize) oracle 10

/-- A whole run's sequence of batcher calls, threading the process-wide flag. -/
def runBatches : Bool → List (Nat × (Nat → SSHOutcome)) → Bool × List SSHAction
  | flag, [] => (flag, [])
  | flag, (n, o) :: rest =>
    let r := processBatchSSHChecks flag n o
    let r2 := runBatches r.1 rest
    (r2.1, r.2 ++ r2.2)

/-- Is the action the authentication-failure warning? -/
def isWarn : SSHAction → Bool
  | .warnAuthOnce => true
  | _ => false

/-- Is the action a probe-command execution? -/
def isExec : SSHAction → Bool
  | .execCmd _ => true
  | _ => false

/-- Is the action the fixed 10-second retry sleep? -/
def isSleep : SSHAction → Bool
  | .sleepMs _ => true
  | _ => false

/-- Number of authentication-failure warnings among the actions. -/
def countWarn (acts : List SSHAction) : Nat := (acts.filter isWarn).length

/-- Number of probe-command executions among the actions. -/
def countExec (acts : List SSHAction) : Nat := (acts.filter isExec).length

/-- Number of retry sleeps among the actions. -/
def countSleep (acts : List SSHAction) : Nat := (acts.filter isSleep).length

/-! ### Batch Runner result assembly (src/index.ts lines 610-660)

Each file's promise records its result in `completionTracker` keyed by file
name (the recorded result carries that file name).  After racing
`Promise.all` against the 30-minute batch timeout, the batch results are
rebuilt from the tracker: one entry per file of the batch, with a
failed-incomplete marker for files absent from the tracker. -/

/-- Per-file result object `{ fileName, success, error?, entryCount }`. -/
structure FileResult where
  fileName : String
  success : Bool
  error : Option String
  entryCount : Nat
deriving DecidableEq, Repr

/-- The error message given to files that missed the batch deadline. -/
def batchTimeoutError : String := "File did not complete within batch timeout"

/-- `batch.map(fileName => completionTracker.get(fileName) || {...})`. -/
def buildBatchResults (batch : List String) (tracker : String → Option FileResult) :
    List FileResult :=
  batch.map fun f =>
    match tracker f with
    | some r => r
    | none => ⟨f, false, some batchTimeoutError, 0⟩

/-! ### Line Classifier (src/index.ts lines 122-255)

`parseLargeJsonFile` iterates the file's lines.  Per line: increment the line
counter; JSON-parse (a malformed line logs an error and continues); skip
silently when `ClientIP` is falsy; hash the IP with MD5; normalise the host;
pick the site directory and gsutil domain from the host (a missing host
throws at `clientRequestHost.includes`, which the catch logs as a parse
error); when host and path are truthy, invoke the resolver: `unidentified`
queues an `UnidentifiedFile` (dispatching a batch of SSH checks at 30),
`invalid` is dropped, and an identified payload is emitted with the hashed
IP and the file's date.  MD5 and the resolver are oracle parameters; the MD5
oracle is a fixed pure function, modelling that `crypto.createHash('md5')`
is deterministic within and across runs. -/

/-- The fields of one parsed JSON log line that the classifier reads
(`undefined`/`null` is `none`; other falsy string values are `some ""`). -/
structure RawLine where
  clientRequestHost : Option String
  clientRequestPath : Option String
  clientIP : Option String
deriving DecidableEq, Repr

/-- A line of the input file: either malformed JSON or a parsed record. -/
inductive ParsedLine where
  | malformed
  | ok (l : RawLine)
deriving DecidableEq, Repr

/-- An emitted record `{ ...resultIdentify, ip, date }`. -/
structure LogEntry where
  db : Option String
  id : Option String
  ip : String
  date : String
deriving DecidableEq, Repr

/-- Result of `identifyItem(host, path)`. -/
inductive ResolveResult where
  | identified (db id : Option String)
  | invalid
  | unidentified
deriving DecidableEq, Repr

/-- An entry of the `unidentifiedFiles` batch. -/
structure UnidentifiedFile where
  host : String
  path : String
  serverPath : String
deriving DecidableEq, Repr

/-- Observable per-file classifier state. -/
structure FileState where
  lineCount : Nat
  entries : List LogEntry
  unidentified : List UnidentifiedFile
  errorsLogged : Nat
  resolverCalls : Nat
  batchesDispatched : Nat
deriving DecidableEq, Repr

/-- Host normalisation: bare apex domains get a `www.` prefix. -/
def normalizeHost (h : String) : String :=
  if h = "aznude.com" ∨ h = "azmen.com" ∨ h = "azfans.com" then "www." ++ h else h

/-- Hosts routed to the aznude site. -/
def aznudeHosts : List String :=
  ["cdn2.aznude.com", "cdn1.aznude.com", "www.aznude.com", "user-uploads.aznude.com",
   "aznude.com"]

/-- Hosts routed to the azmen site. -/
def azmenHosts : List String :=
  ["men.aznude.com", "cdn-men.aznude.com", "azmen.com", "www.azmen.com"]

/-- Hosts routed to the azfans site. -/
def azfansHosts : List String :=
  ["cdn2.azfans.com", "azfans.com", "www.azfans.com"]

/-- `config.directories.MAIN_DIR_AZNUDE` default. -/
def MAIN_DIR_AZNUDE : String := "/var/www/html/aznbaby"

/-- `config.directories.MAIN_DIR_AZNUDEMEN` default. -/
def MAIN_DIR_AZNUDEMEN : String := "/var/www/html/aznbaby/aznudemen"

/-- `config.directories.MAIN_DIR_AZFANS` default. -/
def MAIN_DIR_AZFANS : String := "/var/www/html/aznbaby/azfans"

/-- Directory and gsutil domain (`gsutil.replace('gs://', '')`) chosen from
the request host (src/index.ts lines 170-192). -/
def siteFor (h : String) : String × String :=
  if aznudeHosts.contains h || strIncludes h "aznude.com" then
    (MAIN_DIR_AZNUDE, replaceFirst "gs://aznude-html" "gs://" "")
  else if azmenHosts.contains h || strIncludes h "azmen.com" then
    (MAIN_DIR_AZNUDEMEN, replaceFirst "gs://azmen-html" "gs://" "")
  else if azfansHosts.contains h || strIncludes h "azfans.com" then
    (MAIN_DIR_AZFANS, replaceFirst "gs://azfans-html" "gs://" "")
  else
    (MAIN_DIR_AZNUDE, replaceFirst "gs://aznude-html" "gs://" "")

/-- Server path for an unidentified request: try
`fullThing.replace(gsutilDomain, dir)`; when that changed nothing, prepend
the directory to the path (src/index.ts lines 202-218). -/
def mkServerPath (dir gsutilDomain host path : String) : String :=
  let fullThing := host ++ path
  let replaced := replaceFirst fullThing gsutilDomain dir
  if replaced = fullThing then
    if startsWithSlash path then dir ++ path else dir ++ "/" ++ path
  else replaced

/-- The SSH batch size (`BATCH_SIZE`). -/
def CLASSIFIER_BATCH_SIZE : Nat := 30

/-- One line of `parseLargeJsonFile`'s loop over the file state. -/
def stepLine (md5 : String → String) (resolve : String → String → ResolveResult)
    (dateGet : String) (st : FileState) (pl : ParsedLine) : FileState :=
  let st1 := { st with lineCount := st.lineCount + 1 }
  match pl with
  | .malformed => { st1 with errorsLogged := st1.errorsLogged + 1 }
  | .ok l =>
    match l.clientIP with
    | none => st1
    | some rawIP =>
      if rawIP = "" then st1
      else
        let hashedIP := md5 rawIP
        match l.clientRequestHost with
        | none => { st1 with errorsLogged := st1.errorsLogged + 1 }
        | some h0 =>
          let host := normalizeHost h0
          let site := siteFor host
          match l.clientRequestPath with
          | none => st1
          | some p =>
            if host = "" ∨ p = "" then st1
            else
              let st2 := { st1 with resolverCalls := st1.resolverCalls + 1 }
              match resolve host p with
              | .unidentified =>
                let q := st2.unidentified ++ [⟨host, p, mkServerPath site.1 site.2 host p⟩]
                if CLASSIFIER_BATCH_SIZE ≤ q.length then
                  { st2 with unidentified := [],
                             batchesDispatched := st2.batchesDispatched + 1 }
                else { st2 with unidentified := q }
              | .invalid => st2
              | .identified db id =>
                { st2 with entries := st2.entries ++ [⟨db, id, hashedIP, dateGet⟩] }

/-- State at the start of a file. -/
def initState : FileState := ⟨0, [], [], 0, 0, 0⟩

/-- The classifier's pass over a whole file. -/
def parseFile (md5 : String → String) (resolve : String → String → ResolveResult)
    (dateGet : String) (lines : List ParsedLine) : FileState :=
  lines.foldl (stepLine md5 resolve dateGet) initState

/-! ### Upload-Verify-Commit (src/index.ts lines 908-953; src/utils/s3.ts)

After the merge stage, when the deduplicated file exists: upload it with
rclone (a failure logs and exits fatally); on success delete the staging
artifacts (`outputDirectory`, the partition directory, `allinone.txt`,
`allinone_unique.txt`); flush the html_map inserts; call
`doesS3Exist(bucketNameClean, date + '.txt')`; only when it confirms the
object, run the `INSERT INTO logs` state-row write, else log and exit
fatally.  `doesS3Exist` uses the separate R2 client (independent
credentials) when the bucket name contains `clean-logs` and the R2 client
was initialised, else the Wasabi S3 client. -/

/-- Which client `doesS3Exist` uses for the HEAD request. -/
inductive VerifyClient where
  | r2
  | s3
deriving DecidableEq, Repr

/-- Client selection of `doesS3Exist` (src/utils/s3.ts lines 251-318). -/
def doesS3ExistClient (bucket : String) (r2Available : Bool) : VerifyClient :=
  if strIncludes bucket "clean-logs" && r2Available then .r2 else .s3

/-- Observable events of the commit stage. -/
inductive CommitEvent where
  | uploadArchive (remotePath : String)
  | deleteStagingArtifacts
  | flushInserts
  | verifyArchive (bucket key : String) (client : VerifyClient)
  | insertStateRow (day status r2path : String)
  | fatalExit
  | dedupNotFoundFile
deriving DecidableEq, Repr

/-- The commit stage for one partition.  `localExists` is
`existsSync(outputFilePathUnique)`, `uploadOk` whether `rcloneCopy` returned
`'success'`, `verifyOk` what `doesS3Exist` returned. -/
def commitStage (dateDirectory bucketNameClean : String) (r2Available : Bool)
    (localExists uploadOk verifyOk : Bool) : List CommitEvent :=
  if localExists then
    if uploadOk then
      [.uploadArchive ("r2:" ++ bucketNameClean ++ "/" ++ dateDirectory ++ ".txt"),
       .deleteStagingArtifacts,
       .flushInserts,
       .verifyArchive bucketNameClean (dateDirectory ++ ".txt")
         (doesS3ExistClient bucketNameClean r2Available)] ++
      (if verifyOk then
        [.insertStateRow dateDirectory "downloaded"
           ("s3://" ++ bucketNameClean ++ "/" ++ dateDirectory ++ ".txt"),
         .dedupNotFoundFile]
      else [.fatalExit])
    else
      [.uploadArchive ("r2:" ++ bucketNameClean ++ "/" ++ dateDirectory ++ ".txt"),
       .fatalExit]
  else [.fatalExit]

/-! ## Theorems -/

/-! ### Upload-Verify-Commit: claims C1 and C2 -/

/-- Claim C1: the ProcessingState row (the `INSERT INTO logs` with the
partition's date key, status `downloaded`, and archive path) is written iff
the uploaded archive exists locally, the rclone upload succeeded and the
independent `doesS3Exist` verification confirmed the object; when
verification fails no state row is written; any state-row write is preceded
in the trace by the verification event, and for the `clean-logs` archive
buckets with the R2 client initialised the verification runs on the separate
R2 client. -/
theorem C1_state_row_only_after_verification (d b : String) (r2 l u v : Bool) :
    ((CommitEvent.insertStateRow d "downloaded" ("s3://" ++ b ++ "/" ++ d ++ ".txt")) ∈
        commitStage d b r2 l u v ↔ (l = true ∧ u = true ∧ v = true)) ∧
    (∀ day st pth, (CommitEvent.insertStateRow day st pth) ∈ commitStage d b r2 l u v →
       ∃ pre post, commitStage d b r2 l u v =
          pre ++ (CommitEvent.verifyArchive b (d ++ ".txt") (doesS3ExistClient b r2)) :: post ∧
          (∀ day2 st2 pth2, (CommitEvent.insertStateRow day2 st2 pth2) ∉ pre) ∧
          (CommitEvent.insertStateRow day st pth) ∈ post) ∧
    (strIncludes b "clean-logs" = true → r2 = true → doesS3ExistClient b r2 = .r2) ∧
    strIncludes "aznude-clean-logs" "clean-logs" = true ∧
    strIncludes "azmen-clean-logs" "clean-logs" = true ∧
    strIncludes "azfans-clean-logs" "clean-logs" = true := by
  refine ⟨?_, ?_, ?_, by decide, by decide, by decide⟩
  · cases l <;> cases u <;> cases v <;> simp [commitStage]
  · intro day st pth hmem
    cases l <;> cases u <;> cases v <;> simp [commitStage] at hmem ⊢
    obtain ⟨h1, h2, h3⟩ := hmem
    refine ⟨[.uploadArchive ("r2:" ++ b ++ "/" ++ d ++ ".txt"),
             .deleteStagingArtifacts, .flushInserts],
            [.insertStateRow d "downloaded" ("s3://" ++ b ++ "/" ++ d ++ ".txt"),
             .dedupNotFoundFile], ?_, ?_, ?_⟩
    · rfl
    · simp
    · simp [h1, h2, h3]
  · intro h1 h2
    simp [doesS3ExistClient, h1, h2]

/-- Claim C2 counterexample: in the run where the local artifact exists, the
upload succeeds and the verification then fails, the staging artifacts are
deleted although the state-row write never happens (the state row that would
have been written for this partition is not in the trace). -/
theorem C2_counterexample_cleanup_before_state_write :
    CommitEvent.deleteStagingArtifacts ∈
      commitStage "20240101" "aznude-clean-logs" true true true false ∧
    CommitEvent.insertStateRow "20240101" "downloaded"
        "s3://aznude-clean-logs/20240101.txt" ∉
      commitStage "20240101" "aznude-clean-logs" true true true false := by
  constructor
  · simp [commitStage]
  · simp [commitStage]

/-- Claim C2 (amended): the local staging artifacts are deleted exactly when
the deduplicated artifact existed and the rclone upload succeeded — the
deletion happens immediately after the upload, before the independent
verification and before the state-row write (in particular it also happens
in runs whose verification fails and which therefore never write the state
row). -/
theorem C2_amended_cleanup_after_upload (d b : String) (r2 l u v : Bool) :
    (CommitEvent.deleteStagingArtifacts ∈ commitStage d b r2 l u v ↔
      (l = true ∧ u = true)) ∧
    (l = true → u = true → ∃ post, commitStage d b r2 l u v =
       CommitEvent.uploadArchive ("r2:" ++ b ++ "/" ++ d ++ ".txt") ::
       CommitEvent.deleteStagingArtifacts :: post) ∧
    (v = false → ∀ day st pth,
       CommitEvent.insertStateRow day st pth ∉ commitStage d b r2 l u v) := by
  refine ⟨?_, ?_, ?_⟩
  · cases l <;> cases u <;> cases v <;> simp [commitStage]
  · intro hl hu
    subst hl; subst hu
    cases v <;> exact ⟨_, rfl⟩
  · intro hv day st pth
    subst hv
    cases l <;> cases u <;> simp [commitStage]

/-! ### Existence Batcher: claims C9, C5, C7 -/

/-- Every probe execution in the retry loop uses the timeout the loop was
entered with. -/
theorem sshLoop_exec_timeout (tmo : Nat) (o : Nat → SSHOutcome) :
    ∀ k t, SSHAction.execCmd t ∈ (sshLoop tmo o k).2 → t = tmo := by
  intro k
  induction k with
  | zero => intro t ht; simp [sshLoop] at ht
  | succ n ih =>
    intro t ht
    rw [sshLoop] at ht
    cases ho : o n with
    | ok => rw [ho] at ht; simp at ht; exact ht
    | authDenied => rw [ho] at ht; simp at ht; exact ht
    | transient =>
      rw [ho] at ht
      by_cases hn : n = 0
      · rw [if_pos hn] at ht
        simp at ht
        exact ht
      · rw [if_neg hn] at ht
        simp at ht
        rcases ht with h1 | h3
        · exact h1
        · exact ih t h3

/-- The loop always executes the probe at least once (with its timeout). -/
theorem sshLoop_first_exec (tmo : Nat) (o : Nat → SSHOutcome) (n : Nat) :
    SSHAction.execCmd tmo ∈ (sshLoop tmo o (n + 1)).2 := by
  rw [sshLoop]
  cases ho : o n with
  | ok => simp
  | authDenied => simp
  | transient => by_cases hn : n = 0 <;> simp [hn]

/-- Claim C9: for a non-empty batch of `n` unresolved candidates, every probe
execution of the call uses the timeout `min(60000, 1000 + n * 1000)`
milliseconds, and when the circuit breaker is not tripped such an execution
actually happens; sample values of the formula. -/
theorem C9_probe_timeout_scaled (n : Nat) (o : Nat → SSHOutcome) (hn : 0 < n) :
    (∀ flag t, SSHAction.execCmd t ∈ (processBatchSSHChecks flag n o).2 →
       t = min 60000 (1000 + n * 1000)) ∧
    SSHAction.execCmd (min 60000 (1000 + n * 1000)) ∈
      (processBatchSSHChecks false n o).2 ∧
    sshTimeout 30 = 31000 ∧ sshTimeout 59 = 60000 ∧ sshTimeout 100 = 60000 := by
  have hne : n ≠ 0 := Nat.pos_iff_ne_zero.mp hn
  refine ⟨?_, ?_, by decide, by decide, by decide⟩
  · intro flag t ht
    cases flag with
    | false =>
      simp [processBatchSSHChecks, hne] at ht
      exact sshLoop_exec_timeout _ o 10 t ht
    | true =>
      simp [processBatchSSHChecks, hne] at ht
  · simp [processBatchSSHChecks, hne]
    exact sshLoop_first_exec _ o 9

/-- Claim C9 witness at the classifier's batch size 30. -/
theorem C9_witness :
    (0 : Nat) < 30 ∧
    SSHAction.execCmd (min 60000 (1000 + 30 * 1000)) ∈
      (processBatchSSHChecks false 30 (fun _ => SSHOutcome.ok)).2 :=
  ⟨by decide, (C9_probe_timeout_scaled 30 (fun _ => SSHOutcome.ok) (by decide)).2.1⟩

/-- The retry loop emits the auth warning exactly when it sets the flag. -/
theorem sshLoop_warn_count (tmo : Nat) (o : Nat → SSHOutcome) :
    ∀ k, countWarn (sshLoop tmo o k).2 = if (sshLoop tmo o k).1 then 1 else 0 := by
  intro k
  induction k with
  | zero => simp [sshLoop, countWarn]
  | succ n ih =>
    rw [sshLoop]
    cases ho : o n with
    | ok => simp [countWarn, isWarn, List.filter_cons]
    | authDenied => simp [countWarn, isWarn, List.filter_cons]
    | transient =>
      by_cases hn : n = 0
      · rw [if_pos hn]
        simp [countWarn, isWarn, List.filter_cons]
      · rw [if_neg hn]
        simpa [countWarn, isWarn, List.filter_cons] using ih

/-- A call made with the circuit breaker already tripped does nothing. -/
theorem processBatch_flag_true (n : Nat) (o : Nat → SSHOutcome) :
    processBatchSSHChecks true n o = (true, []) := by
  by_cases h : n = 0 <;> simp [processBatchSSHChecks, h]

/-- Once the flag is set, the whole remainder of the run does nothing. -/
theorem runBatches_flag_true (bs : List (Nat × (Nat → SSHOutcome))) :
    runBatches true bs = (true, []) := by
  induction bs with
  | nil => rfl
  | cons b rest ih =>
    obtain ⟨n, o⟩ := b
    rw [runBatches, processBatch_flag_true]
    simpa using ih

/-- One batcher call emits the warning exactly when it trips the flag. -/
theorem processBatch_warn_count (n : Nat) (o : Nat → SSHOutcome) :
    countWarn (processBatchSSHChecks false n o).2 =
      if (processBatchSSHChecks false n o).1 then 1 else 0 := by
  by_cases h : n = 0
  · simp [processBatchSSHChecks, h, countWarn]
  · simp only [processBatchSSHChecks, h, if_false, Bool.false_eq_true, if_neg]
    exact sshLoop_warn_count _ o 10

/-- Across a whole run started with the flag clear, the warning count is 1
when the flag ends up set and 0 otherwise. -/
theorem runBatches_warn_count (bs : List (Nat × (Nat → SSHOutcome))) :
    countWarn (runBatches false bs).2 = if (runBatches false bs).1 then 1 else 0 := by
  induction bs with
  | nil => simp [runBatches, countWarn]
  | cons b rest ih =>
    obtain ⟨n, o⟩ := b
    rw [runBatches]
    have happ : ∀ a c : List SSHAction, countWarn (a ++ c) = countWarn a + countWarn c := by
      intro a c; simp [countWarn, List.filter_append]
    cases hf : (processBatchSSHChecks false n o).1 with
    | false =>
      have h0 : countWarn (processBatchSSHChecks false n o).2 = 0 := by
        rw [processBatch_warn_count, hf]; simp
      simp only [hf, happ, h0, Nat.zero_add]
      exact ih
    | true =>
      have h1 : countWarn (processBatchSSHChecks false n o).2 = 1 := by
        rw [processBatch_warn_count, hf]; simp
      rw [runBatches_flag_true]
      simp only [happ]
      rw [h1]
      simp [countWarn]

/-- Claim C5: a call made with `sshAuthFailed` set returns without executing
any remote command (it performs no actions at all and leaves the flag set);
the remainder of the run after the flag is set performs no actions; in any
run the authentication warning is emitted at most once, and exactly once in
every run that trips the breaker. -/
theorem C5_auth_circuit_breaker :
    (∀ n o, processBatchSSHChecks true n o = (true, [])) ∧
    (∀ bs, runBatches true bs = (true, [])) ∧
    (∀ bs, countWarn (runBatches false bs).2 ≤ 1) ∧
    (∀ bs, (runBatches false bs).1 = true →
       countWarn (runBatches false bs).2 = 1) := by
  refine ⟨processBatch_flag_true, runBatches_flag_true, ?_, ?_⟩
  · intro bs
    rw [runBatches_warn_count]
    split <;> simp
  · intro bs h
    rw [runBatches_warn_count, h]
    simp

/-- Behaviour of the retry loop when every attempt fails transiently:
no flag, `k` executions, `k` retry sleeps, no warning, and (for at least one
attempt) a final give-up on the batch. -/
theorem sshLoop_all_transient (tmo : Nat) (o : Nat → SSHOutcome)
    (ho : ∀ k, o k = SSHOutcome.transient) :
    ∀ k, (sshLoop tmo o k).1 = false ∧
      countExec (sshLoop tmo o k).2 = k ∧
      countSleep (sshLoop tmo o k).2 = k ∧
      countWarn (sshLoop tmo o k).2 = 0 ∧
      (0 < k → SSHAction.giveUpBatch ∈ (sshLoop tmo o k).2) := by
  intro k
  induction k with
  | zero => simp [sshLoop, countExec, countSleep, countWarn]
  | succ n ih =>
    rw [sshLoop, ho n]
    by_cases hn : n = 0
    · rw [if_pos hn]
      subst hn
      refine ⟨rfl, ?_, ?_, ?_, ?_⟩ <;>
        simp [countExec, countSleep, countWarn, isExec, isSleep, isWarn, List.filter_cons]
    · rw [if_neg hn]
      obtain ⟨ih1, ih2, ih3, ih4, ih5⟩ := ih
      refine ⟨by simpa using ih1, ?_, ?_, ?_, ?_⟩
      · simp [countExec, isExec, List.filter_cons] at ih2 ⊢
        omega
      · simp [countSleep, isSleep, List.filter_cons] at ih3 ⊢
        omega
      · simpa [countWarn, isWarn, List.filter_cons] using ih4
      · intro _
        have := ih5 (Nat.pos_of_ne_zero hn)
        simp only [List.mem_cons]
        right; right; exact this

/-- The retry loop never executes the probe more often than it has attempts
left. -/
theorem sshLoop_exec_le (tmo : Nat) (o : Nat → SSHOutcome) :
    ∀ k, countExec (sshLoop tmo o k).2 ≤ k := by
  intro k
  induction k with
  | zero => simp [sshLoop, countExec]
  | succ n ih =>
    rw [sshLoop]
    cases ho : o n with
    | ok => simp [countExec, isExec, List.filter_cons]
    | authDenied => simp [countExec, isExec, List.filter_cons]
    | transient =>
      by_cases hn : n = 0
      · rw [if_pos hn]
        subst hn
        simp [countExec, isExec, List.filter_cons]
      · rw [if_neg hn]
        simp only [countExec, isExec, List.filter_cons] at ih ⊢
        simp only [if_pos, if_neg]
        simp
        omega

/-- Claim C7: when every probe attempt fails transiently, the batcher
executes exactly 10 attempts with a 10-second sleep after each, gives up on
the batch without tripping the breaker and without any warning; no call ever
executes more than 10 attempts; and giving up leaves the remainder of the
run exactly as it would have been (the next batches still run). -/
theorem C7_transient_retry_policy (n : Nat) (o : Nat → SSHOutcome)
    (rest : List (Nat × (Nat → SSHOutcome))) (hn : 0 < n)
    (ho : ∀ k, o k = SSHOutcome.transient) :
    countExec (processBatchSSHChecks false n o).2 = 10 ∧
    countSleep (processBatchSSHChecks false n o).2 = 10 ∧
    SSHAction.giveUpBatch ∈ (processBatchSSHChecks false n o).2 ∧
    (processBatchSSHChecks false n o).1 = false ∧
    countWarn (processBatchSSHChecks false n o).2 = 0 ∧
    (∀ flag m oo, countExec (processBatchSSHChecks flag m oo).2 ≤ 10) ∧
    runBatches false ((n, o) :: rest) =
      ((runBatches false rest).1,
        (processBatchSSHChecks false n o).2 ++ (runBatches false rest).2) := by
  have hne : n ≠ 0 := Nat.pos_iff_ne_zero.mp hn
  have hpb : processBatchSSHChecks false n o = sshLoop (sshTimeout n) o 10 := by
    simp [processBatchSSHChecks, hne]
  obtain ⟨h1, h2, h3, h4, h5⟩ := sshLoop_all_transient (sshTimeout n) o ho 10
  refine ⟨by rw [hpb]; exact h2, by rw [hpb]; exact h3, by rw [hpb]; exact h5 (by decide),
    by rw [hpb]; exact h1, by rw [hpb]; exact h4, ?_, ?_⟩
  · intro flag m oo
    by_cases hm : m = 0
    · simp [processBatchSSHChecks, hm, countExec]
    · cases flag with
      | true => simp [processBatchSSHChecks, hm, countExec]
      | false =>
        simp only [processBatchSSHChecks, hm, if_neg, Bool.false_eq_true, if_false]
        exact sshLoop_exec_le _ oo 10
  · rw [runBatches]
    have hflag : (processBatchSSHChecks false n o).1 = false := by
      rw [hpb]; exact h1
    rw [hflag]

/-- Claim C7 witness: an all-transient oracle at batch size 30. -/
theorem C7_witness :
    countExec (processBatchSSHChecks false 30 (fun _ => SSHOutcome.transient)).2 = 10 :=
  (C7_transient_retry_policy 30 (fun _ => SSHOutcome.transient) [] (by decide)
    (fun _ => rfl)).1

/-! ### Batch Runner: claim C6 -/

/-- Claim C6: when the per-batch deadline fires, the rebuilt result list has
exactly one entry per file of the batch, in batch order; a file whose result
was recorded before expiry keeps that result, and a file absent from the
completion tracker gets the failed-incomplete marker
(`success = false`, error `'File did not complete within batch timeout'`,
zero entries). -/
theorem C6_batch_deadline_results (batch : List String)
    (tracker : String → Option FileResult)
    (hname : ∀ f r, tracker f = some r → r.fileName = f) :
    (buildBatchResults batch tracker).length = batch.length ∧
    (buildBatchResults batch tracker).map (fun r => r.fileName) = batch ∧
    (∀ (i : Nat) (f : String) (r : FileResult), batch[i]? = some f → tracker f = some r →
       (buildBatchResults batch tracker)[i]? = some r) ∧
    (∀ (i : Nat) (f : String), batch[i]? = some f → tracker f = none →
       (buildBatchResults batch tracker)[i]? =
         some ⟨f, false, some batchTimeoutError, 0⟩) := by
  refine ⟨by simp [buildBatchResults], ?_, ?_, ?_⟩
  · rw [buildBatchResults, List.map_map]
    have hid : ∀ f ∈ batch,
        ((fun r => r.fileName) ∘ fun f =>
          match tracker f with
          | some r => r
          | none => ⟨f, false, some batchTimeoutError, 0⟩) f = id f := by
      intro f _
      simp only [Function.comp, id]
      cases h : tracker f with
      | none => rfl
      | some r => exact hname f r h
    rw [List.map_congr_left hid, List.map_id]
  · intro i f r hi hf
    rw [buildBatchResults, List.getElem?_map, hi]
    simp [hf]
  · intro i f hi hf
    rw [buildBatchResults, List.getElem?_map, hi]
    simp [hf]

/-- Claim C6 witness: a two-file batch whose tracker recorded both files. -/
theorem C6_witness :
    (buildBatchResults ["a.log.gz", "b.log.gz"]
      (fun f => some ⟨f, true, none, 1⟩)).length = 2 :=
  (C6_batch_deadline_results ["a.log.gz", "b.log.gz"] (fun f => some ⟨f, true, none, 1⟩)
    (fun f r h => by cases h; rfl)).1

/-! ### Line Classifier: claims C10 and C8 -/

/-- Claim C10: a well-formed line whose `ClientIP` is absent or falsy is
skipped silently — the resulting file state is the previous one with only
the line counter incremented (no entry emitted, nothing queued for the SSH
batch, no resolver call, no error logged, no batch dispatched). -/
theorem C10_falsy_client_ip_skipped (md5 : String → String)
    (resolve : String → String → ResolveResult) (dateGet : String)
    (st : FileState) (l : RawLine)
    (h : l.clientIP = none ∨ l.clientIP = some "") :
    stepLine md5 resolve dateGet st (ParsedLine.ok l) =
      { st with lineCount := st.lineCount + 1 } := by
  rcases h with h | h <;> simp [stepLine, h]

/-- Claim C10 witness: a line with a host and path but no `ClientIP`. -/
theorem C10_witness :
    stepLine (fun s => s) (fun _ _ => ResolveResult.invalid) "20240101" initState
      (ParsedLine.ok ⟨some "www.aznude.com", some "/view/a.html", none⟩) =
    { initState with lineCount := initState.lineCount + 1 } :=
  C10_falsy_client_ip_skipped (fun s => s) (fun _ _ => ResolveResult.invalid)
    "20240101" initState ⟨some "www.aznude.com", some "/view/a.html", none⟩ (Or.inl rfl)

/-- One classifier step either leaves the emitted entries unchanged or
appends exactly one entry whose `ip` field is the MD5 oracle applied to the
line's raw `ClientIP` and whose payload is the resolver's identified
payload. -/
theorem stepLine_entries (md5 : String → String)
    (resolve : String → String → ResolveResult) (dateGet : String)
    (st : FileState) (pl : ParsedLine) :
    (stepLine md5 resolve dateGet st pl).entries = st.entries ∨
    ∃ l raw db id h0 p, pl = ParsedLine.ok l ∧ l.clientIP = some raw ∧ raw ≠ "" ∧
      l.clientRequestHost = some h0 ∧ l.clientRequestPath = some p ∧
      resolve (normalizeHost h0) p = ResolveResult.identified db id ∧
      (stepLine md5 resolve dateGet st pl).entries =
        st.entries ++ [⟨db, id, md5 raw, dateGet⟩] := by
  cases pl with
  | malformed => left; simp [stepLine]
  | ok l =>
    cases hip : l.clientIP with
    | none => left; simp [stepLine, hip]
    | some raw =>
      by_cases hraw : raw = ""
      · left; simp [stepLine, hip, hraw]
      · cases hh : l.clientRequestHost with
        | none => left; simp [stepLine, hip, hraw, hh]
        | some h0 =>
          cases hp : l.clientRequestPath with
          | none => left; simp [stepLine, hip, hraw, hh, hp]
          | some p =>
            by_cases hhp : normalizeHost h0 = "" ∨ p = ""
            · left; simp [stepLine, hip, hraw, hh, hp, hhp]
            · cases hr : resolve (normalizeHost h0) p with
              | unidentified =>
                left
                simp only [stepLine, hip, hraw, hh, hp, hhp, hr, if_neg, if_false]
                split <;> rfl
              | invalid => left; simp [stepLine, hip, hraw, hh, hp, hhp, hr]
              | identified db id =>
                right
                exact ⟨l, raw, db, id, h0, p, rfl, hip, hraw, hh, hp, hr,
                  by simp [stepLine, hip, hraw, hh, hp, hhp, hr]⟩

/-- Entries accumulated by the classifier fold all come from lines with a
truthy `ClientIP` and carry the hashed identifier. -/
theorem foldl_entries_hashed (md5 : String → String)
    (resolve : String → String → ResolveResult) (dateGet : String) :
    ∀ (lines : List ParsedLine) (st : FileState),
      ∀ e ∈ (lines.foldl (stepLine md5 resolve dateGet) st).entries,
        e ∈ st.entries ∨
        ∃ l raw db id, ParsedLine.ok l ∈ lines ∧ l.clientIP = some raw ∧ raw ≠ "" ∧
          e = ⟨db, id, md5 raw, dateGet⟩ := by
  intro lines
  induction lines with
  | nil => intro st e he; exact Or.inl he
  | cons pl rest ih =>
    intro st e he
    rw [List.foldl_cons] at he
    rcases ih (stepLine md5 resolve dateGet st pl) e he with hin | ⟨l, raw, db, id, hl, hipl, hrawl, hel⟩
    · rcases stepLine_entries md5 resolve dateGet st pl with heq | ⟨l, raw, db, id, h0, p, hpl, hip, hraw, _, _, _, happ⟩
      · rw [heq] at hin; exact Or.inl hin
      · rw [happ] at hin
        rcases List.mem_append.mp hin with h | h
        · exact Or.inl h
        · right
          refine ⟨l, raw, db, id, ?_, hip, hraw, ?_⟩
          · rw [hpl]; exact List.mem_cons_self _ _
          · simpa using h
    · exact Or.inr ⟨l, raw, db, id, List.mem_cons_of_mem _ hl, hipl, hrawl, hel⟩

/-- Claim C8: every record the classifier emits for a file carries as its
`ip` field the MD5 digest of the line's raw `ClientIP` — the raw identifier
is replaced by its hash before the record reaches the scratch file, and
since the digest oracle is one fixed pure function, equal raw identifiers
receive equal hashes within and across runs. -/
theorem C8_anonymized_deterministic_hash (md5 : String → String)
    (resolve : String → String → ResolveResult) (dateGet : String)
    (lines : List ParsedLine) (e : LogEntry)
    (he : e ∈ (parseFile md5 resolve dateGet lines).entries) :
    ∃ l raw db id, ParsedLine.ok l ∈ lines ∧ l.clientIP = some raw ∧ raw ≠ "" ∧
      e = ⟨db, id, md5 raw, dateGet⟩ ∧ e.ip = md5 raw := by
  rcases foldl_entries_hashed md5 resolve dateGet lines initState e he with h0 | ⟨l, raw, db, id, h1, h2, h3, h4⟩
  · simp [initState] at h0
  · exact ⟨l, raw, db, id, h1, h2, h3, h4, by rw [h4]⟩

/-- Claim C8 witness: one identified line; the emitted record's `ip` is the
digest of the raw address. -/
theorem C8_witness :
    ∃ l raw db id,
      ParsedLine.ok l ∈
        [ParsedLine.ok ⟨some "www.aznude.com", some "/view/a.html", some "1.2.3.4"⟩] ∧
      l.clientIP = some raw ∧ raw ≠ "" ∧
      (⟨some "aznude", some "42", "md5:" ++ "1.2.3.4", "20240101"⟩ : LogEntry) =
        ⟨db, id, "md5:" ++ raw, "20240101"⟩ ∧
      (⟨some "aznude", some "42", "md5:" ++ "1.2.3.4", "20240101"⟩ : LogEntry).ip =
        "md5:" ++ raw :=
  C8_anonymized_deterministic_hash (fun s => "md5:" ++ s)
    (fun _ _ => ResolveResult.identified (some "aznude") (some "42")) "20240101"
    [ParsedLine.ok ⟨some "www.aznude.com", some "/view/a.html", some "1.2.3.4"⟩]
    ⟨some "aznude", some "42", "md5:" ++ "1.2.3.4", "20240101"⟩ (by decide)

/-! ### Partition Catalog: claim C3 -/

/-- Claim C3 counterexample: with a single listed partition and no persisted
state rows, the partition's date key has no ProcessingState row, yet the
partition is not a candidate — the code always excludes the most recent
partition, so the claimed `iff` fails in the `no row → candidate`
direction. -/
theorem C3_counterexample_most_recent_excluded :
    "s3://aznude-logs/20240101/" ∈ (["s3://aznude-logs/20240101/"] : List String) ∧
    folderDateKey "s3://aznude-logs/20240101/" ∉ existingDatesOf [] ∧
    "s3://aznude-logs/20240101/" ∉ candidateFolders ["s3://aznude-logs/20240101/"] [] := by
  refine ⟨by simp, by simp [existingDatesOf], ?_⟩
  intro h
  simp [candidateFolders, List.insertionSort] at h

/-- In a sorted list, every element is related to the last one. -/
theorem sorted_rel_getLast {α : Type} (r : α → α → Prop) (hrefl : ∀ a, r a a)
    (l : List α) (hl : l ≠ []) (hs : List.Sorted r l) :
    ∀ x ∈ l, r x (l.getLast hl) := by
  intro x hx
  have hdecomp := List.dropLast_append_getLast hl
  rw [← hdecomp] at hs hx
  rw [List.Sorted, List.pairwise_append] at hs
  rcases List.mem_append.mp hx with h | h
  · exact hs.2.2 x h _ (List.mem_singleton.mpr rfl)
  · rw [List.mem_singleton.mp h]
    exact hrefl _

/-- Claim C3 (amended): the candidates are exactly the listed partitions
minus one partition of maximal date key (the most recent one, which the code
always drops) whose date key has no ProcessingState row: for every listed
partition set there is a maximal-date partition `last` such that a partition
is a candidate iff it is in the listing with that one occurrence removed and
no state row exists for its date key. -/
theorem C3_amended_candidates (folders rows : List String) (h : folders ≠ []) :
    ∃ last, last ∈ folders ∧
      (∀ g ∈ folders, folderDateKey g ≤ folderDateKey last) ∧
      ∀ f, f ∈ candidateFolders folders rows ↔
        (f ∈ folders.erase last ∧ folderDateKey f ∉ existingDatesOf rows) := by
  have hperm : List.Perm (List.insertionSort folderLe folders) folders :=
    List.perm_insertionSort folderLe folders
  have hsne : List.insertionSort folderLe folders ≠ [] := by
    intro h0
    exact h (List.Perm.eq_nil (h0 ▸ hperm.symm))
  refine ⟨(List.insertionSort folderLe folders).getLast hsne, ?_, ?_, ?_⟩
  · exact hperm.mem_iff.mp (List.getLast_mem hsne)
  · intro g hg
    exact sorted_rel_getLast folderLe (fun a => le_refl (folderDateKey a)) _ hsne
      (List.sorted_insertionSort folderLe folders) g (hperm.mem_iff.mpr hg)
  · intro f
    have hdecomp := List.dropLast_append_getLast hsne
    have herase : List.Perm (List.insertionSort folderLe folders).dropLast
        (folders.erase ((List.insertionSort folderLe folders).getLast hsne)) := by
      have h1 : List.Perm
          ((List.insertionSort folderLe folders).dropLast ++
            [(List.insertionSort folderLe folders).getLast hsne])
          folders := by rw [hdecomp]; exact hperm
      have h2 : List.Perm
          ((List.insertionSort folderLe folders).getLast hsne ::
            (List.insertionSort folderLe folders).dropLast)
          ((List.insertionSort folderLe folders).getLast hsne ::
            folders.erase ((List.insertionSort folderLe folders).getLast hsne)) :=
        ((List.perm_append_singleton _ _).symm.trans h1).trans
          (List.perm_cons_erase (hperm.mem_iff.mp (List.getLast_mem hsne)))
      exact h2.cons_inv
    constructor
    · intro hf
      rw [candidateFolders] at hf
      simp only [List.mem_filter, decide_eq_true_iff] at hf
      exact ⟨herase.mem_iff.mp hf.1, hf.2⟩
    · intro ⟨hf1, hf2⟩
      rw [candidateFolders]
      simp only [List.mem_filter, decide_eq_true_iff]
      exact ⟨herase.mem_iff.mpr hf1, hf2⟩

/-! ### Merge/Dedupe: claim C4 -/

/-- `dropWhile` yields nil or a list headed by an element failing the
predicate. -/
theorem dropWhile_head_cases {α : Type} (p : α → Bool) (l : List α) :
    l.dropWhile p = [] ∨
    ∃ c rest, l.dropWhile p = c :: rest ∧ p c = false := by
  induction l with
  | nil => exact Or.inl rfl
  | cons c cs ih =>
    by_cases hc : p c
    · rw [List.dropWhile_cons_of_pos hc]
      exact ih
    · rw [List.dropWhile_cons_of_neg hc]
      exact Or.inr ⟨c, cs, rfl, Bool.not_eq_true _ ▸ eq_false_of_ne_true hc⟩

/-- `dropWhile` is idempotent. -/
theorem dropWhile_idem {α : Type} (p : α → Bool) (l : List α) :
    (l.dropWhile p).dropWhile p = l.dropWhile p := by
  rcases dropWhile_head_cases p l with h | ⟨c, rest, h, hc⟩
  · rw [h]; rfl
  · rw [h, List.dropWhile_cons_of_neg (by simp [hc])]

/-- `dropWhile` keeps the last element when it keeps anything. -/
theorem getLast?_dropWhile {α : Type} (p : α → Bool) (l : List α)
    (h : l.dropWhile p ≠ []) : (l.dropWhile p).getLast? = l.getLast? := by
  induction l with
  | nil => exact absurd rfl h
  | cons c cs ih =>
    by_cases hc : p c
    · rw [List.dropWhile_cons_of_pos hc] at h ⊢
      have hcs : cs ≠ [] := by
        intro h0
        rw [h0] at h
        exact h rfl
      obtain ⟨d, ds, rfl⟩ := List.exists_cons_of_ne_nil hcs
      rw [List.getLast?_cons_cons]
      exact ih h
    · rw [List.dropWhile_cons_of_neg hc]

/-- The whitespace trim is idempotent at the character-list level. -/
theorem jsTrimL_idem (l : List Char) : jsTrimL (jsTrimL l) = jsTrimL l := by
  have hstep : (jsTrimL l).dropWhile isJsWS = jsTrimL l := by
    rcases dropWhile_head_cases isJsWS (l.dropWhile isJsWS).reverse with hb | ⟨c, rest, hb, hc⟩
    · rw [jsTrimL, hb]; rfl
    · have hbne : (l.dropWhile isJsWS).reverse.dropWhile isJsWS ≠ [] := by
        rw [hb]; exact List.cons_ne_nil _ _
      have hane : l.dropWhile isJsWS ≠ [] := by
        intro h0
        rw [h0] at hbne
        exact hbne rfl
      obtain ⟨a0, arest, ha⟩ : ∃ a0 arest, l.dropWhile isJsWS = a0 :: arest ∧ isJsWS a0 = false := by
        rcases dropWhile_head_cases isJsWS l with h0 | h0
        · exact absurd h0 hane
        · exact h0
      have hhead : (jsTrimL l).head? = some a0 := by
        rw [jsTrimL, List.head?_reverse, getLast?_dropWhile isJsWS _ hbne,
          List.getLast?_reverse, ha.1]
        rfl
      obtain ⟨t0, ts, ht⟩ := List.exists_cons_of_ne_nil
        (by intro h0; rw [h0] at hhead; exact Option.noConfusion hhead :
          jsTrimL l ≠ [])
      have ht0 : t0 = a0 := by
        rw [ht] at hhead
        exact Option.some.inj hhead
      rw [ht, ht0, List.dropWhile_cons_of_neg (by simp [ha.2])]
  rw [jsTrimL, hstep]
  rw [jsTrimL, List.reverse_reverse, dropWhile_idem]

/-- The modelled `trim` is idempotent. -/
theorem jsTrim_idem (s : String) : jsTrim (jsTrim s) = jsTrim s :=
  congrArg String.mk (jsTrimL_idem s.toList)

/-- Membership in the merged intermediate file. -/
theorem mem_mergeLines (files : List (List String)) (x : String) :
    x ∈ mergeLines files ↔
      (∃ f ∈ files, ∃ y ∈ f, jsTrim y = x) ∧ x ≠ "" := by
  simp only [mergeLines, List.mem_flatten, List.mem_map, List.mem_filter, bne_iff_ne,
    ne_eq]
  constructor
  · rintro ⟨lf, ⟨f, hf, rfl⟩, hx⟩
    rcases List.mem_filter.mp hx with ⟨hx1, hx2⟩
    rcases List.mem_map.mp hx1 with ⟨y, hy, rfl⟩
    exact ⟨⟨f, hf, y, hy, rfl⟩, by simpa using hx2⟩
  · rintro ⟨⟨f, hf, y, hy, rfl⟩, hne⟩
    exact ⟨(f.map jsTrim).filter (fun z => z != ""), ⟨f, hf, rfl⟩,
      List.mem_filter.mpr ⟨List.mem_map.mpr ⟨y, hy, rfl⟩, by simpa using hne⟩⟩

/-- Lines of the merged file are trim-fixed and non-empty. -/
theorem mergeLines_fixed (files : List (List String)) :
    ∀ x ∈ mergeLines files, jsTrim x = x ∧ x ≠ "" := by
  intro x hx
  rcases (mem_mergeLines files x).mp hx with ⟨⟨f, _, y, _, rfl⟩, hne⟩
  exact ⟨jsTrim_idem y, hne⟩

/-- `sort -u` preserves the set of lines. -/
theorem toFinset_sortU (l : List String) : (sortU l).toFinset = l.toFinset := by
  ext a
  simp only [List.mem_toFinset, sortU, List.mem_dedup]
  exact (List.perm_insertionSort strLe l).mem_iff

/-- Everything the fallback pass writes is a non-empty trimmed input line. -/
theorem fallback_subset (cap : Nat) :
    ∀ (l : List String) (seen : Finset String),
      ∀ x ∈ fallbackDedup cap l seen, x ∈ (l.map jsTrim).filter (fun y => y != "") := by
  intro l
  induction l with
  | nil => intro seen x hx; simp [fallbackDedup] at hx
  | cons line rest ih =>
    intro seen x hx
    rw [fallbackDedup] at hx
    by_cases ht : jsTrim line = ""
    · rw [if_pos ht] at hx
      have := ih seen x hx
      simp only [List.map_cons, List.filter_cons, ht]
      rw [if_neg (by simp)]
      exact this
    · rw [if_neg ht] at hx
      by_cases hseen : jsTrim line ∈ seen
      · rw [if_pos hseen] at hx
        have := ih seen x hx
        simp only [List.map_cons, List.filter_cons]
        by_cases hb : (jsTrim line != "") = true
        · rw [if_pos hb]
          exact List.mem_cons_of_mem _ this
        · rw [if_neg hb]
          exact this
      · rw [if_neg hseen] at hx
        simp only [List.mem_cons] at hx
        simp only [List.map_cons, List.filter_cons]
        rw [if_pos (by simpa using ht)]
        rcases hx with rfl | hx
        · exact List.mem_cons_self _ _
        · exact List.mem_cons_of_mem _ (ih _ x hx)

/-- Every non-empty trimmed input line is written by the fallback pass or
was already in the `seen` set on entry. -/
theorem fallback_covers (cap : Nat) :
    ∀ (l : List String) (seen : Finset String) (x : String),
      x ∈ (l.map jsTrim).filter (fun y => y != "") →
      x ∈ fallbackDedup cap l seen ∨ x ∈ seen := by
  intro l
  induction l with
  | nil => intro seen x hx; simp at hx
  | cons line rest ih =>
    intro seen x hx
    simp only [List.map_cons, List.filter_cons] at hx
    rw [fallbackDedup]
    by_cases ht : jsTrim line = ""
    · rw [if_pos ht]
      rw [if_neg (by simp [ht])] at hx
      exact ih seen x hx
    · rw [if_neg ht]
      rw [if_pos (by simpa using ht)] at hx
      rcases List.mem_cons.mp hx with rfl | hx
      · by_cases hseen : jsTrim line ∈ seen
        · rw [if_pos hseen]
          exact Or.inr hseen
        · rw [if_neg hseen]
          exact Or.inl (List.mem_cons_self _ _)
      · by_cases hseen : jsTrim line ∈ seen
        · rw [if_pos hseen]
          exact ih seen x hx
        · rw [if_neg hseen]
          rcases ih
            (if cap ≤ (insert (jsTrim line) seen).card then ∅
             else insert (jsTrim line) seen) x hx with h | h
          · exact Or.inl (List.mem_cons_of_mem _ h)
          · by_cases hcap : cap ≤ (insert (jsTrim line) seen).card
            · rw [if_pos hcap] at h
              exact absurd h (Finset.not_mem_empty x)
            · rw [if_neg hcap] at h
              rcases Finset.mem_insert.mp h with rfl | h
              · exact Or.inl (List.mem_cons_self _ _)
              · exact Or.inr h

/-- The set of lines the fallback pass writes is exactly the set of
non-empty trimmed input lines. -/
theorem toFinset_fallbackOutput (l : List String) :
    (fallbackOutput l).toFinset = ((l.map jsTrim).filter (fun y => y != "")).toFinset := by
  ext a
  simp only [List.mem_toFinset]
  constructor
  · exact fallback_subset MAX_SET_SIZE l ∅ a
  · intro h
    rcases fallback_covers MAX_SET_SIZE l ∅ a h with h | h
    · exact h
    · exact absurd h (Finset.not_mem_empty a)

/-- Claim C4: on the merge stage's input files, the set of lines of the
primary `sort -u` output equals the set of lines of the fallback's final
(bounded-set streaming dedupe followed by a trailing sort) output, and both
equal the set of distinct non-empty trimmed input lines. -/
theorem C4_dedupe_strategies_equivalent (files : List (List String)) :
    (sortU (mergeLines files)).toFinset = (fallbackFinal (mergeLines files)).toFinset ∧
    (sortU (mergeLines files)).toFinset =
      ((files.flatten.map jsTrim).filter (fun y => y != "")).toFinset := by
  have hfix : (mergeLines files).map jsTrim = mergeLines files :=
    List.map_congr_left (fun x hx => (mergeLines_fixed files x hx).1) |>.trans
      (List.map_id _)
  have hfil : (mergeLines files).filter (fun y => y != "") = mergeLines files :=
    List.filter_eq_self.mpr
      (fun x hx => by simpa using (mergeLines_fixed files x hx).2)
  have hfb : (fallbackFinal (mergeLines files)).toFinset =
      (mergeLines files).toFinset := by
    have hperm : List.Perm (fallbackFinal (mergeLines files))
        (fallbackOutput (mergeLines files)) :=
      List.perm_insertionSort strLe _
    ext a
    simp only [List.mem_toFinset]
    rw [hperm.mem_iff, ← List.mem_toFinset, toFinset_fallbackOutput, hfix, hfil,
      List.mem_toFinset]
  have hmerge : (mergeLines files).toFinset =
      ((files.flatten.map jsTrim).filter (fun y => y != "")).toFinset := by
    ext a
    simp only [List.mem_toFinset, mem_mergeLines, List.mem_filter, List.mem_map,
      List.mem_flatten, bne_iff_ne, ne_eq]
    constructor
    · rintro ⟨⟨f, hf, y, hy, rfl⟩, hne⟩
      exact ⟨⟨y, ⟨f, hf, hy⟩, rfl⟩, hne⟩
    · rintro ⟨⟨y, ⟨f, hf, hy⟩, rfl⟩, hne⟩
      exact ⟨⟨f, hf, y, hy, rfl⟩, hne⟩
  refine ⟨?_, ?_⟩
  · rw [toFinset_sortU, hfb]
  · rw [toFinset_sortU, hmerge]

/-- Claim C3 (amended) witness: two listed partitions, no state rows. -/
theorem C3_witness :
    (["s3://aznude-logs/20240101/", "s3://aznude-logs/20240102/"] : List String) ≠ [] ∧
    ∃ last, last ∈ (["s3://aznude-logs/20240101/", "s3://aznude-logs/20240102/"] : List String) ∧
      (∀ g ∈ (["s3://aznude-logs/20240101/", "s3://aznude-logs/20240102/"] : List String),
        folderDateKey g ≤ folderDateKey last) ∧
      ∀ f, f ∈ candidateFolders ["s3://aznude-logs/20240101/", "s3://aznude-logs/20240102/"] [] ↔
        (f ∈ (["s3://aznude-logs/20240101/", "s3://aznude-logs/20240102/"] : List String).erase last ∧
         folderDateKey f ∉ existingDatesOf []) :=
  ⟨by simp, C3_amended_candidates ["s3://aznude-logs/20240101/", "s3://aznude-logs/20240102/"] []
    (by simp)⟩

end LogCode
